import Mathlib

/-!
# Verification of the ffmpeg-mcp resource-governance core

Shallow embedding of the resource-governance core of the ffmpeg-mcp server:

* `SecurityManager.sanitizeFFmpegArgs` and `SecurityManager.checkRateLimit` /
  `SecurityManager.cleanupRateLimitMap` (src/utils/security.ts),
* `CacheManager.getMediaInfo` / `setMediaInfo` / `cleanupCache` (src/utils/cache.ts),
* `JobQueue.processQueue` / `startJob` / `addJob` / `cancelJob` (src/utils/queue.ts).

JavaScript `Map`s are embedded as association lists, `Set`s as lists, wall-clock
times (`Date.now()`, `mtime`) as natural numbers (milliseconds), and the
single-shot settlement of a JavaScript `Promise` (resolve/reject after the first
settlement are no-ops, per the ECMAScript specification) as an `Option Outcome`
write-once cell.
-/

namespace FFmpegMcp

/-! ## SecurityManager.sanitizeFFmpegArgs (src/utils/security.ts, lines 142-181)

The sanitizer walks the argument list with an index; `validPath` abstracts the
result of `validateFilePath` on a path-like argument (`true` = the call does not
throw).  The `dangerousFlags` array of the source is the literal token list
`['-f', 'lavfi', '-protocol_whitelist', '-safe', '0', '-f', 'concat']`. -/

def dangerousFlags : List String :=
  ["-f", "lavfi", "-protocol_whitelist", "-safe", "0", "-f", "concat"]

/-- `String.startsWith`, computed on the underlying character lists (so that it
evaluates by kernel reduction). -/
def strStartsWith (s p : String) : Bool :=
  p.data.isPrefixOf s.data

/-- `arg.startsWith "/" || arg.startsWith "./" || arg.startsWith "../"` from the
source's path-shaped-argument test. -/
def looksLikePath (arg : String) : Bool :=
  strStartsWith arg "/" || strStartsWith arg "./" || strStartsWith arg "../"

/-- `SecurityManager.sanitizeFFmpegArgs`.  The source's `for` loop with manual
index increment (`i++` inside the `-i pipe:` branch skips the next argument) is
embedded as structural recursion on the remaining argument list. -/
def sanitizeFFmpegArgs (validPath : String → Bool) : List String → List String
  | [] => []
  | "-i" :: "pipe:" :: rest =>
    -- In the source the `dangerousFlags.includes(arg)` test runs first, but
    -- `"-i"` is not an element of `dangerousFlags`, so the `-i pipe:` branch
    -- (which also skips the following argument) can be lifted to a pattern.
    sanitizeFFmpegArgs validPath rest
  | arg :: rest =>
    if dangerousFlags.contains arg then
      sanitizeFFmpegArgs validPath rest
    else if looksLikePath arg && !(validPath arg) then
      sanitizeFFmpegArgs validPath rest
    else
      arg :: sanitizeFFmpegArgs validPath rest

/-- Does the list contain an `-i` token immediately followed by `pipe:`? -/
def hasPipedInput : List String → Bool
  | "-i" :: "pipe:" :: _ => true
  | _ :: rest => hasPipedInput rest
  | [] => false

/-! ## SecurityManager rate limiting (src/utils/security.ts, lines 38-45, 67-95) -/

structure RateLimitEntry where
  count : Nat
  windowStart : Nat
  deriving Repr, DecidableEq

structure SecurityConfig where
  /-- `rateLimitWindow`, in seconds. -/
  rateLimitWindow : Nat
  /-- `rateLimitMaxRequests`. -/
  rateLimitMaxRequests : Nat
  deriving Repr, DecidableEq

/-- The mutable state of `SecurityManager`: the `rateLimitMap : Map<string,
RateLimitEntry>` and the `blockedIPs : Set<string>`. -/
structure SecState where
  rateLimitMap : List (String × RateLimitEntry)
  blockedIPs : List String
  deriving Repr, DecidableEq

/-- `Map.prototype.set`: replace the binding if the key is present, append
otherwise (JavaScript `Map`s preserve insertion order). -/
def mapSet {α : Type} (k : String) (v : α) :
    List (String × α) → List (String × α)
  | [] => [(k, v)]
  | (k', v') :: rest =>
    if k' == k then (k, v) :: rest else (k', v') :: mapSet k v rest

/-- `Map.prototype.delete`: remove the binding for `k`.  A JavaScript `Map`
holds at most one binding per key; on the association lists produced by
`mapSet` (no duplicate keys) removing every binding for `k` is the same
operation. -/
def mapDelete {α : Type} (k : String) (m : List (String × α)) :
    List (String × α) :=
  m.filter (fun e => !(e.1 == k))

/-- `SecurityManager.checkRateLimit(clientId)`, with `Date.now()` passed in as
`now`.  Returns the boolean result together with the updated state.  `now -
entry.windowStart` uses truncated subtraction, which agrees with the source's
signed subtraction on every monotone clock trace. -/
def checkRateLimit (cfg : SecurityConfig) (now : Nat) (clientId : String)
    (s : SecState) : Bool × SecState :=
  if s.blockedIPs.contains clientId then
    (false, s)
  else
    match s.rateLimitMap.lookup clientId with
    | none =>
      (true, { s with rateLimitMap := mapSet clientId ⟨1, now⟩ s.rateLimitMap })
    | some entry =>
      if now - entry.windowStart > cfg.rateLimitWindow * 1000 then
        (true, { s with rateLimitMap := mapSet clientId ⟨1, now⟩ s.rateLimitMap })
      else
        let count := entry.count + 1
        if count > cfg.rateLimitMaxRequests then
          (false, { rateLimitMap := mapSet clientId ⟨count, entry.windowStart⟩ s.rateLimitMap,
                    blockedIPs := s.blockedIPs ++ [clientId] })
        else
          (true, { s with rateLimitMap := mapSet clientId ⟨count, entry.windowStart⟩ s.rateLimitMap })

/-- `SecurityManager.cleanupRateLimitMap()`: delete every map entry whose window
is stale.  It never touches `blockedIPs`. -/
def cleanupRateLimitMap (cfg : SecurityConfig) (now : Nat) (s : SecState) : SecState :=
  { s with rateLimitMap :=
      s.rateLimitMap.filter (fun e => !(now - e.2.windowStart > cfg.rateLimitWindow * 1000)) }

/-- The state after `k` consecutive `checkRateLimit` calls for the same client,
all at the same instant `now`. -/
def stateAfter (cfg : SecurityConfig) (now : Nat) (clientId : String) :
    Nat → SecState → SecState
  | 0, s => s
  | k + 1, s => stateAfter cfg now clientId k (checkRateLimit cfg now clientId s).2

/-! ## CacheManager (src/utils/cache.ts)

The `MediaInfo` payload is opaque to every cache operation, so the embedding is
parametric in the payload type `α`. -/

structure CacheEntry (α : Type) where
  data : α
  /-- Creation time (`Date.now()` at insertion), milliseconds. -/
  timestamp : Nat
  accessCount : Nat
  deriving Repr, DecidableEq

structure PerformanceConfig where
  maxConcurrentJobs : Nat
  /-- `queueTimeout`, milliseconds. -/
  queueTimeout : Nat
  cacheSize : Nat
  enableCaching : Bool
  deriving Repr, DecidableEq

structure CacheState (α : Type) where
  mediaInfoCache : List (String × CacheEntry α)
  deriving Repr, DecidableEq

/-- `CacheManager.generateCacheKey(filePath, operation)` at the only operation
the source uses, `'mediaInfo'`. -/
def generateCacheKey (filePath : String) : String :=
  "mediaInfo:" ++ filePath

/-- `CacheManager.getMediaInfo(filePath)`.  The filesystem is abstracted as
`fsMtime : String → Option Nat`: `some m` is a successful `fs.statSync` whose
`mtime` is `m` milliseconds, `none` is a throwing `statSync` (file gone).
Returns the cache result (`none` = miss) and the updated cache state. -/
def getMediaInfo {α : Type} (cfg : PerformanceConfig) (fsMtime : String → Option Nat)
    (filePath : String) (c : CacheState α) : Option α × CacheState α :=
  if !cfg.enableCaching then (none, c)
  else
    let key := generateCacheKey filePath
    match c.mediaInfoCache.lookup key with
    | none => (none, c)
    | some entry =>
      match fsMtime filePath with
      | none =>
        (none, { mediaInfoCache := mapDelete key c.mediaInfoCache })
      | some mtime =>
        if mtime > entry.timestamp then
          (none, { mediaInfoCache := mapDelete key c.mediaInfoCache })
        else
          (some entry.data,
           { mediaInfoCache :=
              mapSet key { entry with accessCount := entry.accessCount + 1 } c.mediaInfoCache })

/-- The eviction score `entry.accessCount / (Date.now() - entry.timestamp)`,
over `ℚ`.  The source computes it in floating point, where `now = timestamp`
gives `Infinity` (here: division by zero gives `0`); the theorems below depend
only on how many entries a sweep removes, which the scores cannot affect. -/
def evictionScore {α : Type} (now : Nat) (e : CacheEntry α) : ℚ :=
  (e.accessCount : ℚ) / ((now : ℚ) - (e.timestamp : ℚ))

/-- Stable insertion (ascending by `evictionScore`) embedding the source's
`entries.sort((a, b) => scoreA - scoreB)`: `Array.prototype.sort` is stable, and
a stable sort's output is determined by the comparator, so insertion sort is a
faithful model. -/
def insertByScore {α : Type} (now : Nat) (x : String × CacheEntry α) :
    List (String × CacheEntry α) → List (String × CacheEntry α)
  | [] => [x]
  | y :: ys =>
    if evictionScore now y.2 < evictionScore now x.2 then y :: insertByScore now x ys
    else x :: y :: ys

def sortByScore {α : Type} (now : Nat) (m : List (String × CacheEntry α)) :
    List (String × CacheEntry α) :=
  m.foldr (insertByScore now) []

/-- `CacheManager.cleanupCache()`.  `Math.floor(this.maxSize * 0.2)` is embedded
as `cacheSize * 2 / 10` (floor division on `Nat`), which agrees with the
double-precision computation at every realistic size. -/
def cleanupCache {α : Type} (cfg : PerformanceConfig) (now : Nat)
    (c : CacheState α) : CacheState α :=
  if c.mediaInfoCache.length ≤ cfg.cacheSize then c
  else
    let entries := sortByScore now c.mediaInfoCache
    let removedKeys := (entries.take (cfg.cacheSize * 2 / 10)).map Prod.fst
    { mediaInfoCache := c.mediaInfoCache.filter (fun e => !(removedKeys.contains e.1)) }

/-- `CacheManager.setMediaInfo(filePath, info)`.  The insertion-time trigger
`size > this.maxSize * 1.2` is embedded as `10 * size > 12 * cacheSize`; the
double `1.2` rounds just below `6/5`, so at sizes where `maxSize * 1.2` is an
integer the source can trigger the sweep one insertion earlier — no claim below
depends on the trigger threshold. -/
def setMediaInfo {α : Type} (cfg : PerformanceConfig) (now : Nat)
    (filePath : String) (info : α) (c : CacheState α) : CacheState α :=
  if !cfg.enableCaching then c
  else
    let c' : CacheState α :=
      { mediaInfoCache :=
          mapSet (generateCacheKey filePath) ⟨info, now, 1⟩ c.mediaInfoCache }
    if 10 * c'.mediaInfoCache.length > 12 * cfg.cacheSize then cleanupCache cfg now c'
    else c'

/-! ## JobQueue (src/utils/queue.ts)

A `Job` carries a unique identifier, a work-kind tag, a numeric priority and an
optional start timestamp.  The opaque `args` payload and the progress callback
play no role in scheduling and are omitted; the `resolve`/`reject` completion
callbacks are modelled by the write-once channel of the runtime section
below. -/

structure Job where
  id : String
  jobType : String
  priority : Int
  startTime : Option Nat := none
  deriving Repr, DecidableEq

/-- The mutable state of `JobQueue`: the pending array `queue`, the `running`
map and the `completed` map (whose opaque `result` payload is dropped, keeping
the timestamp used by `cleanupCompleted`). -/
structure QueueState where
  queue : List Job
  running : List (String × Job)
  completed : List (String × Nat)
  deriving Repr, DecidableEq

def QueueState.init : QueueState := ⟨[], [], []⟩

/-- The source's per-tick `this.queue.sort((a, b) => b.priority - a.priority)`:
a stable sort, descending by priority.  `Array.prototype.sort` is stable and a
stable sort's output is determined by the comparator, so stable insertion sort
is a faithful model. -/
def insertByPriority (x : Job) : List Job → List Job
  | [] => [x]
  | y :: ys =>
    if x.priority < y.priority then y :: insertByPriority x ys
    else x :: y :: ys

def sortQueue (q : List Job) : List Job :=
  q.foldr insertByPriority []

/-- `JobQueue.processQueue()` together with the synchronous prefix of
`startJob` (set `startTime`, insert into `running`): admit nothing when
`running.size >= maxConcurrentJobs` or the queue is empty, otherwise sort the
queue by priority and shift exactly one job into `running`. -/
def processQueue (cfg : PerformanceConfig) (now : Nat) (s : QueueState) : QueueState :=
  if cfg.maxConcurrentJobs ≤ s.running.length then s
  else
    match sortQueue s.queue with
    | [] => s
    | j :: rest =>
      { s with
        queue := rest
        running := mapSet j.id { j with startTime := some now } s.running }

/-- `cleanupCompleted()`: drop completed entries older than one minute. -/
def cleanupCompleted (now : Nat) (s : QueueState) : QueueState :=
  { s with completed := s.completed.filter (fun e => !(now - e.2 > 60000)) }

/-- `addJob`: push the new job onto the pending array. -/
def addJob (j : Job) (s : QueueState) : QueueState :=
  { s with queue := s.queue ++ [j] }

/-- `cancelJob(jobId)`: remove the job from the pending array if queued (its
handle is rejected), otherwise drop it from `running` if present. -/
def cancelJob (jobId : String) (s : QueueState) : QueueState :=
  if s.queue.any (fun j => j.id == jobId) then
    { s with queue := s.queue.filter (fun j => !(j.id == jobId)) }
  else if (s.running.lookup jobId).isSome then
    { s with running := mapDelete jobId s.running }
  else s

/-- The asynchronous events that touch the scheduler state, at the source lines
where they run: a submission (`addJob`), a scheduling tick (`processQueue`), the
executor finishing a job with a result (`completed.set`, `running.delete`), the
executor failing or the timeout timer firing (`running.delete`), a cancellation
(`cancelJob`) and the periodic `cleanupCompleted`. -/
inductive QOp where
  | submit (j : Job)
  | tick (now : Nat)
  | complete (id : String) (now : Nat)
  | fail (id : String)
  | timeoutFire (id : String)
  | cancel (id : String)
  | sweepCompleted (now : Nat)
  deriving Repr, DecidableEq

def applyQOp (cfg : PerformanceConfig) (s : QueueState) : QOp → QueueState
  | .submit j => addJob j s
  | .tick now => processQueue cfg now s
  | .complete id now =>
    { s with completed := mapSet id now s.completed,
             running := mapDelete id s.running }
  | .fail id => { s with running := mapDelete id s.running }
  | .timeoutFire id => { s with running := mapDelete id s.running }
  | .cancel id => cancelJob id s
  | .sweepCompleted now => cleanupCompleted now s

/-- Run a sequence of scheduler events from the empty initial state. -/
def runOps (cfg : PerformanceConfig) (ops : List QOp) : QueueState :=
  ops.foldl (applyQOp cfg) QueueState.init

/-- The trace of dispatches produced by successive admitting ticks over a fixed
pending queue: every tick re-sorts the remaining queue (stably, descending by
priority) and shifts its head, exactly as `processQueue` does. -/
def dispatchOrder (q : List Job) : List Job :=
  go q.length q
where
  go : Nat → List Job → List Job
    | 0, _ => []
    | fuel + 1, q =>
      match sortQueue q with
      | [] => []
      | j :: rest => j :: go fuel rest

/-! ## The completion channel and the `startJob` runtime

`addJob` returns `new Promise((resolve, reject) => ...)`; per the ECMAScript
specification a promise is settled at most once — every `resolve`/`reject`
after the first settlement is a no-op.  The channel is embedded as a
write-once `Option Outcome` cell. -/

inductive Outcome where
  | success (v : String)
  | failure (e : String)
  deriving Repr, DecidableEq

/-- `resolve(v)` on the promise backing a job's handle. -/
def settleResolve (ch : Option Outcome) (v : String) : Option Outcome :=
  match ch with
  | none => some (Outcome.success v)
  | some o => some o

/-- `reject(e)` on the promise backing a job's handle. -/
def settleReject (ch : Option Outcome) (e : String) : Option Outcome :=
  match ch with
  | none => some (Outcome.failure e)
  | some o => some o

def settleAttempt (ch : Option Outcome) : Outcome → Option Outcome
  | .success v => settleResolve ch v
  | .failure e => settleReject ch e

/-- A sequence of settlement attempts applied in order. -/
def settleAttempts (ch : Option Outcome) (os : List Outcome) : Option Outcome :=
  os.foldl settleAttempt ch

/-- The per-job runtime facts `startJob` manipulates: the job's completion
channel, whether the job is in `running` / `completed`, and whether the
Executor has been instructed to terminate the underlying process. -/
structure JobRun where
  channel : Option Outcome
  isRunning : Bool
  isCompleted : Bool
  killIssued : Bool
  deriving Repr, DecidableEq

/-- The state right after dispatch: `startJob` has set `running.set(job.id,
job)` and the handle is unsettled. -/
def dispatched : JobRun := ⟨none, true, false, false⟩

/-- The timeout message `Job ${job.id} timed out after ${timeout}ms`. -/
def timeoutMsg (id : String) (timeout : Nat) : String :=
  "Job " ++ id ++ " timed out after " ++ toString timeout ++ "ms"

/-- The `setTimeout` handler of `startJob` (queue.ts lines 54-57): reject the
handle with the timeout error and delete the job from `running`.  The handler
contains no call that terminates the Executor's process, so `killIssued` is
left unchanged. -/
def timeoutFireEv (id : String) (timeout : Nat) (r : JobRun) : JobRun :=
  { r with channel := settleReject r.channel (timeoutMsg id timeout),
           isRunning := false }

/-- The continuation of `startJob` once `executeJob` settles: on success,
`clearTimeout` (a no-op if the timer already fired), record the job in
`completed`, delete it from `running` and resolve the handle; on error, delete
from `running` and reject the handle. -/
def executorDoneEv (res : Except String String) (r : JobRun) : JobRun :=
  match res with
  | .ok v =>
    { r with isCompleted := true, isRunning := false,
             channel := settleResolve r.channel v }
  | .error e =>
    { r with isRunning := false, channel := settleReject r.channel e }

/-- A full `startJob` run: the two possible interleavings of the timeout timer
and the executor's completion.  When `timeoutFirst` is true the timer fires
before `executeJob` settles (e.g. a 100ms timeout against a 500ms execution);
otherwise `clearTimeout` wins and the timer never fires. -/
def startJobRun (id : String) (timeout : Nat) (timeoutFirst : Bool)
    (res : Except String String) : JobRun :=
  if timeoutFirst then executorDoneEv res (timeoutFireEv id timeout dispatched)
  else executorDoneEv res dispatched

/-- `cancelJob` on a running job (queue.ts lines 136-141) rejects the handle
with `'Job cancelled'` and deletes the job from `running`; the executor's own
settlement attempt arrives afterwards. -/
def cancelRunningThen (res : Except String String) : JobRun :=
  executorDoneEv res
    { dispatched with channel := settleReject dispatched.channel "Job cancelled",
                      isRunning := false }

/-! ## Concrete inputs used by scenarios and witnesses -/

/-- A permissive path validator: every path-shaped argument validates. -/
def vTrue : String → Bool := fun _ => true

/-- Performance configuration with a concurrency ceiling of 2. -/
def cfgC2 : PerformanceConfig := ⟨2, 1000, 10, true⟩

/-- Performance configuration with a cache capacity of 1. -/
def cfgCache1 : PerformanceConfig := ⟨2, 1000, 1, true⟩

/-- Rate-limit configuration: 3 requests per 60-second window. -/
def secCfg3 : SecurityConfig := ⟨60, 3⟩

/-- Three pending jobs submitted in order with priorities 1, 5 and 3. -/
def threeJobs : List Job :=
  [⟨"job-p1", "convert", 1, none⟩, ⟨"job-p5", "convert", 5, none⟩,
   ⟨"job-p3", "convert", 3, none⟩]

/-- A one-entry cache whose entry for `/videos/a.mp4` was created at time 10. -/
def oneEntryCache : CacheState Nat := ⟨[("mediaInfo:/videos/a.mp4", ⟨7, 10, 1⟩)]⟩

/-- A two-entry cache, both entries created at time 0. -/
def twoEntryCache : CacheState Nat :=
  ⟨[("mediaInfo:/videos/a.mp4", ⟨7, 0, 1⟩), ("mediaInfo:/videos/b.mp4", ⟨8, 0, 1⟩)]⟩

/-- A filesystem on which every stat succeeds with modification time `m`. -/
def fsAt (m : Nat) : String → Option Nat := fun _ => some m

/-- A filesystem on which every stat throws (file gone). -/
def fsGone : String → Option Nat := fun _ => none

/-- A scheduler state with the three sample jobs pending and nothing running. -/
def qs3 : QueueState := ⟨threeJobs, [], []⟩

end FFmpegMcp

namespace FFmpegMcp

/-! # Helper lemmas -/

theorem sanitize_all_safe (v : String → Bool) (args : List String) :
    (sanitizeFFmpegArgs v args).all (fun t => !(dangerousFlags.contains t)) = true := by
  induction args using sanitizeFFmpegArgs.induct v with
  | case1 => simp [sanitizeFFmpegArgs]
  | case2 rest ih => simpa [sanitizeFFmpegArgs] using ih
  | case3 arg rest hne hdanger ih =>
    rw [sanitizeFFmpegArgs.eq_3 v arg rest hne, if_pos hdanger]
    exact ih
  | case4 arg rest hne hdanger hpath ih =>
    rw [sanitizeFFmpegArgs.eq_3 v arg rest hne, if_neg hdanger, if_pos hpath]
    exact ih
  | case5 arg rest hne hdanger hpath ih =>
    rw [sanitizeFFmpegArgs.eq_3 v arg rest hne, if_neg hdanger, if_neg hpath]
    rw [List.all_cons, ih]
    simpa using hdanger

theorem settleAttempt_some (o : Outcome) (x : Outcome) :
    settleAttempt (some o) x = some o := by
  cases x <;> rfl

theorem settleAttempts_some (o : Outcome) (os : List Outcome) :
    settleAttempts (some o) os = some o := by
  induction os with
  | nil => rfl
  | cons x xs ih =>
    simp only [settleAttempts, List.foldl_cons, settleAttempt_some]
    exact ih

theorem lookup_mapSet_self {α : Type} (k : String) (v : α)
    (m : List (String × α)) : (mapSet k v m).lookup k = some v := by
  induction m with
  | nil => simp [mapSet]
  | cons e rest ih =>
    by_cases h : e.1 = k
    · simp [mapSet, h]
    · have hb : (e.1 == k) = false := by simpa using h
      have hb2 : (k == e.1) = false := by simpa using Ne.symm h
      simp [mapSet, hb, List.lookup, hb2, ih]

theorem lookup_mapDelete_self {α : Type} (k : String)
    (m : List (String × α)) : (mapDelete k m).lookup k = none := by
  induction m with
  | nil => simp [mapDelete]
  | cons e rest ih =>
    by_cases h : e.1 = k
    · simpa [mapDelete, h] using ih
    · have hb : (e.1 == k) = false := by simpa using h
      have hb2 : (k == e.1) = false := by simpa using Ne.symm h
      simpa [mapDelete, hb, List.lookup, hb2] using ih

theorem length_mapSet_le {α : Type} (k : String) (v : α)
    (m : List (String × α)) : (mapSet k v m).length ≤ m.length + 1 := by
  induction m with
  | nil => simp [mapSet]
  | cons e rest ih =>
    by_cases h : e.1 = k
    · simp [mapSet, h]
    · have hb : (e.1 == k) = false := by simpa using h
      simpa [mapSet, hb] using ih

theorem length_mapDelete_le {α : Type} (k : String)
    (m : List (String × α)) : (mapDelete k m).length ≤ m.length :=
  List.length_filter_le _ m

/-- One scheduler event preserves the concurrency invariant
`running.size ≤ maxConcurrentJobs`. -/
theorem applyQOp_running_le (cfg : PerformanceConfig) (s : QueueState) (op : QOp)
    (h : s.running.length ≤ cfg.maxConcurrentJobs) :
    (applyQOp cfg s op).running.length ≤ cfg.maxConcurrentJobs := by
  cases op with
  | submit j => simpa [applyQOp, addJob] using h
  | tick now =>
    simp only [applyQOp, processQueue]
    by_cases hfull : cfg.maxConcurrentJobs ≤ s.running.length
    · simpa [hfull] using h
    · rw [if_neg hfull]
      cases hq : sortQueue s.queue with
      | nil => exact h
      | cons j rest =>
        have := length_mapSet_le j.id { j with startTime := some now } s.running
        simp only []
        omega
  | complete id now =>
    exact le_trans (length_mapDelete_le id s.running) h
  | fail id =>
    exact le_trans (length_mapDelete_le id s.running) h
  | timeoutFire id =>
    exact le_trans (length_mapDelete_le id s.running) h
  | cancel id =>
    simp only [applyQOp, cancelJob]
    by_cases h1 : s.queue.any (fun j => j.id == id)
    · simpa [h1] using h
    · rw [if_neg h1]
      by_cases h2 : (s.running.lookup id).isSome
      · simp only [h2, if_true]
        exact le_trans (length_mapDelete_le id s.running) h
      · simpa [h2] using h
  | sweepCompleted now => simpa [applyQOp, cleanupCompleted] using h

theorem checkRateLimit_of_blocked (cfg : SecurityConfig) (now : Nat)
    (cid : String) (s : SecState) (h : s.blockedIPs.contains cid = true) :
    checkRateLimit cfg now cid s = (false, s) := by
  have hm : cid ∈ s.blockedIPs := by simpa using h
  simp [checkRateLimit, hm]

theorem checkRateLimit_preserves_blocked (cfg : SecurityConfig) (now : Nat)
    (cid cid2 : String) (s : SecState) (h : s.blockedIPs.contains cid = true) :
    ((checkRateLimit cfg now cid2 s).2).blockedIPs.contains cid = true := by
  have hm : cid ∈ s.blockedIPs := by simpa using h
  unfold checkRateLimit
  by_cases hb : cid2 ∈ s.blockedIPs
  · simpa [hb] using h
  · cases hl : s.rateLimitMap.lookup cid2 with
    | none => simpa [hb, hl] using h
    | some entry =>
      by_cases hw : now - entry.windowStart > cfg.rateLimitWindow * 1000
      · simpa [hb, hl, hw] using h
      · by_cases hc : entry.count + 1 > cfg.rateLimitMaxRequests
        · simp [hb, hl, hw, hc, hm]
        · simpa [hb, hl, hw, hc] using h

/-- Running `k` further `checkRateLimit` calls at the same instant, starting
from a state whose window entry for the client reads `⟨j, now⟩`, counts up to
`⟨j + k, now⟩` and admits every call, as long as `j + k` stays within the
ceiling; the block set is untouched. -/
theorem stateAfter_count (cfg : SecurityConfig) (now : Nat) (cid : String) :
    ∀ (k : Nat) (s : SecState) (j : Nat),
      s.blockedIPs.contains cid = false →
      s.rateLimitMap.lookup cid = some ⟨j, now⟩ →
      j + k ≤ cfg.rateLimitMaxRequests →
      (stateAfter cfg now cid k s).rateLimitMap.lookup cid = some ⟨j + k, now⟩ ∧
      (stateAfter cfg now cid k s).blockedIPs = s.blockedIPs := by
  intro k
  induction k with
  | zero => intro s j hnb hl _; exact ⟨by simpa using hl, rfl⟩
  | succ k ih =>
    intro s j hnb hl hle
    have hnm : cid ∉ s.blockedIPs := by simpa using hnb
    have hw : ¬ (now - now > cfg.rateLimitWindow * 1000) := by omega
    have hc : ¬ (j + 1 > cfg.rateLimitMaxRequests) := by omega
    have hstep : checkRateLimit cfg now cid s =
        (true, { s with rateLimitMap := mapSet cid ⟨j + 1, now⟩ s.rateLimitMap }) := by
      simp [checkRateLimit, hnm, hl, hw, hc]
    have hdef : stateAfter cfg now cid (k + 1) s
        = stateAfter cfg now cid k (checkRateLimit cfg now cid s).2 := rfl
    rw [hdef, hstep]
    have := ih { s with rateLimitMap := mapSet cid ⟨j + 1, now⟩ s.rateLimitMap }
      (j + 1) (by simpa using hnb) (by simpa using lookup_mapSet_self cid ⟨j + 1, now⟩ s.rateLimitMap)
      (by omega)
    refine ⟨?_, this.2⟩
    have harith : j + 1 + k = j + (k + 1) := by omega
    rw [← harith]
    exact this.1

/-- Descending-priority sortedness, the order `processQueue`'s comparator
establishes. -/
abbrev SortedDesc (l : List Job) : Prop :=
  List.Pairwise (fun a b => b.priority ≤ a.priority) l

theorem insertByPriority_perm (x : Job) (l : List Job) :
    (insertByPriority x l).Perm (x :: l) := by
  induction l with
  | nil => exact List.Perm.refl _
  | cons y ys ih =>
    by_cases h : x.priority < y.priority
    · simp only [insertByPriority, if_pos h]
      exact (ih.cons y).trans (List.Perm.swap x y ys)
    · simp only [insertByPriority, if_neg h]
      exact List.Perm.refl _

theorem sortQueue_perm (q : List Job) : (sortQueue q).Perm q := by
  induction q with
  | nil => exact List.Perm.refl _
  | cons x xs ih =>
    exact (insertByPriority_perm x (sortQueue xs)).trans (ih.cons x)

theorem sortedDesc_insertByPriority (x : Job) (l : List Job)
    (h : SortedDesc l) : SortedDesc (insertByPriority x l) := by
  induction l with
  | nil => exact List.pairwise_singleton _ _
  | cons y ys ih =>
    have h' := List.pairwise_cons.mp h
    by_cases hlt : x.priority < y.priority
    · simp only [insertByPriority, if_pos hlt]
      refine List.Pairwise.cons ?_ (ih h'.2)
      intro b hb
      rcases List.mem_cons.mp ((insertByPriority_perm x ys).mem_iff.mp hb) with hbx | hbm
      · subst hbx; omega
      · exact h'.1 b hbm
    · simp only [insertByPriority, if_neg hlt]
      refine List.Pairwise.cons ?_ h
      intro b hb
      rcases List.mem_cons.mp hb with hby | hbm
      · subst hby; omega
      · exact le_trans (h'.1 b hbm) (by omega)

theorem sortQueue_sortedDesc (q : List Job) : SortedDesc (sortQueue q) := by
  induction q with
  | nil => exact List.Pairwise.nil
  | cons x xs ih => exact sortedDesc_insertByPriority x (sortQueue xs) ih

/-- A stable sort leaves an already descending-sorted queue unchanged — so
re-sorting the remaining queue on every tick never reorders it. -/
theorem sortQueue_of_sorted (l : List Job) (h : SortedDesc l) :
    sortQueue l = l := by
  induction l with
  | nil => rfl
  | cons x xs ih =>
    have h' := List.pairwise_cons.mp h
    have hxs : sortQueue xs = xs := ih h'.2
    show insertByPriority x (sortQueue xs) = x :: xs
    rw [hxs]
    cases xs with
    | nil => rfl
    | cons y ys =>
      have hxy : y.priority ≤ x.priority := h'.1 y (List.mem_cons_self y ys)
      simp only [insertByPriority, if_neg (by omega : ¬ x.priority < y.priority)]

theorem length_sortQueue (q : List Job) :
    (sortQueue q).length = q.length :=
  (sortQueue_perm q).length_eq

theorem dispatchOrder_go_of_sorted :
    ∀ (n : Nat) (l : List Job), SortedDesc l → l.length = n →
      dispatchOrder.go n l = l := by
  intro n
  induction n with
  | zero =>
    intro l _ hlen
    cases l with
    | nil => rfl
    | cons x xs => simp at hlen
  | succ n ih =>
    intro l hs hlen
    cases l with
    | nil => simp at hlen
    | cons x xs =>
      show (match sortQueue (x :: xs) with
            | [] => []
            | j :: rest => j :: dispatchOrder.go n rest) = x :: xs
      rw [sortQueue_of_sorted _ hs]
      have : dispatchOrder.go n xs = xs :=
        ih xs (List.pairwise_cons.mp hs).2 (by simpa using hlen)
      simp [this]

/-- Shifting the head of the re-sorted queue tick after tick dispatches
exactly the stably priority-sorted queue. -/
theorem dispatchOrder_eq_sortQueue (q : List Job) :
    dispatchOrder q = sortQueue q := by
  cases hq : sortQueue q with
  | nil =>
    have : q = [] := by
      have := sortQueue_perm q
      rw [hq] at this
      exact (List.Perm.nil_eq this).symm
    subst this
    rfl
  | cons j rest =>
    have hlen : q.length = rest.length + 1 := by
      have := length_sortQueue q
      rw [hq] at this
      simpa using this.symm
    have hsorted : SortedDesc (j :: rest) := by
      have := sortQueue_sortedDesc q
      rwa [hq] at this
    show dispatchOrder.go q.length q = j :: rest
    rw [hlen]
    show (match sortQueue q with
          | [] => []
          | j' :: rest' => j' :: dispatchOrder.go rest.length rest') = j :: rest
    rw [hq]
    have : dispatchOrder.go rest.length rest = rest :=
      dispatchOrder_go_of_sorted rest.length rest (List.pairwise_cons.mp hsorted).2 rfl
    simp [this]

theorem filter_insertByPriority (x : Job) (l : List Job) (p : Int) :
    (insertByPriority x l).filter (fun jb => jb.priority == p)
      = if x.priority = p then x :: l.filter (fun jb => jb.priority == p)
        else l.filter (fun jb => jb.priority == p) := by
  induction l with
  | nil => by_cases hx : x.priority = p <;> simp [insertByPriority, hx]
  | cons y ys ih =>
    by_cases hlt : x.priority < y.priority
    · simp only [insertByPriority, if_pos hlt]
      by_cases hx : x.priority = p
      · have hy : ¬ (y.priority = p) := by omega
        simp [List.filter_cons, hx, hy, ih]
      · by_cases hy : y.priority = p <;> simp [List.filter_cons, hx, hy, ih]
    · simp only [insertByPriority, if_neg hlt]
      by_cases hx : x.priority = p <;> simp [List.filter_cons, hx]

/-- Stability of the per-tick sort: among jobs of any one priority, submission
order is preserved. -/
theorem sortQueue_filter (q : List Job) (p : Int) :
    (sortQueue q).filter (fun jb => jb.priority == p)
      = q.filter (fun jb => jb.priority == p) := by
  induction q with
  | nil => rfl
  | cons x xs ih =>
    show (insertByPriority x (sortQueue xs)).filter (fun jb => jb.priority == p) = _
    rw [filter_insertByPriority]
    by_cases hx : x.priority = p <;> simp [List.filter_cons, hx, ih]

theorem insertByScore_perm {α : Type} (now : Nat) (x : String × CacheEntry α)
    (l : List (String × CacheEntry α)) :
    (insertByScore now x l).Perm (x :: l) := by
  induction l with
  | nil => exact List.Perm.refl _
  | cons y ys ih =>
    by_cases h : evictionScore now y.2 < evictionScore now x.2
    · simp only [insertByScore, if_pos h]
      exact (ih.cons y).trans (List.Perm.swap x y ys)
    · simp only [insertByScore, if_neg h]
      exact List.Perm.refl _

theorem sortByScore_perm {α : Type} (now : Nat)
    (m : List (String × CacheEntry α)) : (sortByScore now m).Perm m := by
  induction m with
  | nil => exact List.Perm.refl _
  | cons x xs ih =>
    exact (insertByScore_perm now x (sortByScore now xs)).trans (ih.cons x)

theorem length_filter_not {β : Type} (p : β → Bool) (l : List β) :
    (l.filter (fun a => !(p a))).length = l.length - l.countP p := by
  induction l with
  | nil => rfl
  | cons a as ih =>
    have hle : as.countP p ≤ as.length := List.countP_le_length p
    cases h : p a
    · simp [List.filter_cons, List.countP_cons, h, ih]
      omega
    · simp [List.filter_cons, List.countP_cons, h, ih]

theorem foldl_running_le (cfg : PerformanceConfig) (ops : List QOp) :
    ∀ s : QueueState, s.running.length ≤ cfg.maxConcurrentJobs →
      ((ops.foldl (applyQOp cfg) s).running.length ≤ cfg.maxConcurrentJobs) := by
  induction ops with
  | nil => intro s h; exact h
  | cons op rest ih =>
    intro s h
    exact ih _ (applyQOp_running_le cfg s op h)

end FFmpegMcp

namespace FFmpegMcp

/-! # Claim theorems -/

/-- C1: for every sequence of scheduler events (submissions, scheduling ticks,
completions, failures, timeouts, cancellations, sweeps) applied to the initial
state, the number of jobs in the `running` set never exceeds the configured
`maxConcurrentJobs` ceiling: a tick admits a job only when `running.size` is
strictly below the ceiling. -/
theorem c1_concurrency_ceiling (cfg : PerformanceConfig) (ops : List QOp) :
    (runOps cfg ops).running.length ≤ cfg.maxConcurrentJobs :=
  foldl_running_le cfg ops QueueState.init (Nat.zero_le _)

/-- C2: in the dispatch order produced by successive scheduling ticks over a
pending queue, a job of strictly greater priority is dispatched no later than
one of lower priority; among jobs of equal priority, submission order is
preserved (JavaScript's `Array.prototype.sort` is stable); and in the concrete
scenario of three jobs with priorities `[1, 5, 3]`, the dispatch order is the
priority-5 job, then the priority-3 job, then the priority-1 job. -/
theorem c2_priority_dispatch (q : List Job) :
    (∀ i j : Fin (dispatchOrder q).length,
        ((dispatchOrder q).get j).priority < ((dispatchOrder q).get i).priority →
          (i : Nat) ≤ (j : Nat))
    ∧ (∀ p : Int, (dispatchOrder q).filter (fun jb => jb.priority == p)
        = q.filter (fun jb => jb.priority == p))
    ∧ (dispatchOrder threeJobs).map Job.id = ["job-p5", "job-p3", "job-p1"] := by
  have hsorted : SortedDesc (dispatchOrder q) := by
    rw [dispatchOrder_eq_sortQueue]
    exact sortQueue_sortedDesc q
  refine ⟨?_, ?_, ?_⟩
  · intro i j hlt
    by_contra hij
    have hji : (j : Nat) < (i : Nat) := by omega
    have := List.pairwise_iff_get.mp hsorted j i (by exact hji)
    omega
  · intro p
    rw [dispatchOrder_eq_sortQueue]
    exact sortQueue_filter q p
  · decide

/-- C2 witness: at the concrete three-job queue, the priority-5 job (dispatch
position 0) goes no later than the priority-1 job (dispatch position 2), and
the single priority-5 job is dispatched in its submission position among
priority-5 jobs. -/
theorem c2_priority_dispatch_witness :
    ((⟨0, by decide⟩ : Fin (dispatchOrder threeJobs).length) : Nat)
        ≤ ((⟨2, by decide⟩ : Fin (dispatchOrder threeJobs).length) : Nat)
    ∧ (dispatchOrder threeJobs).filter (fun jb => jb.priority == 5)
        = threeJobs.filter (fun jb => jb.priority == 5) :=
  ⟨(c2_priority_dispatch threeJobs).1 ⟨0, by decide⟩ ⟨2, by decide⟩ (by decide),
   (c2_priority_dispatch threeJobs).2.1 5⟩

/-- C3: `getMediaInfo` never returns a cached entry whose source file's
modification time is strictly newer than the entry's creation timestamp, and
never returns an entry whose source file no longer exists; in both of those
cases the entry is deleted from the cache and a miss (`none`) is reported.
Every hit comes from an entry whose source still exists with a modification
time at most the entry's timestamp. -/
theorem c3_cache_freshness {α : Type} (cfg : PerformanceConfig)
    (fsMtime : String → Option Nat) (filePath : String) (c : CacheState α) :
    (∀ d : α, (getMediaInfo cfg fsMtime filePath c).1 = some d →
      ∃ e : CacheEntry α,
        c.mediaInfoCache.lookup (generateCacheKey filePath) = some e ∧ e.data = d ∧
        ∃ m : Nat, fsMtime filePath = some m ∧ m ≤ e.timestamp)
    ∧ (∀ e : CacheEntry α,
        cfg.enableCaching = true →
        c.mediaInfoCache.lookup (generateCacheKey filePath) = some e →
        fsMtime filePath = none →
          (getMediaInfo cfg fsMtime filePath c).1 = none ∧
          (getMediaInfo cfg fsMtime filePath c).2.mediaInfoCache.lookup
            (generateCacheKey filePath) = none)
    ∧ (∀ (e : CacheEntry α) (m : Nat),
        cfg.enableCaching = true →
        c.mediaInfoCache.lookup (generateCacheKey filePath) = some e →
        fsMtime filePath = some m → e.timestamp < m →
          (getMediaInfo cfg fsMtime filePath c).1 = none ∧
          (getMediaInfo cfg fsMtime filePath c).2.mediaInfoCache.lookup
            (generateCacheKey filePath) = none) := by
  refine ⟨?_, ?_, ?_⟩
  · intro d hd
    by_cases hc : cfg.enableCaching = true
    · cases hl : c.mediaInfoCache.lookup (generateCacheKey filePath) with
      | none => simp [getMediaInfo, hc, hl] at hd
      | some e =>
        cases hm : fsMtime filePath with
        | none => simp [getMediaInfo, hc, hl, hm] at hd
        | some m =>
          by_cases ht : m > e.timestamp
          · simp [getMediaInfo, hc, hl, hm, ht] at hd
          · have hval : (getMediaInfo cfg fsMtime filePath c).1 = some e.data := by
              simp [getMediaInfo, hc, hl, hm, ht]
            rw [hval] at hd
            exact ⟨e, rfl, Option.some.inj hd, m, rfl, by omega⟩
    · have hcf : cfg.enableCaching = false := by simpa using hc
      simp [getMediaInfo, hcf] at hd
  · intro e hc hl hm
    simp [getMediaInfo, hc, hl, hm, lookup_mapDelete_self]
  · intro e m hc hl hm ht
    simp [getMediaInfo, hc, hl, hm, ht, lookup_mapDelete_self]

/-- C3 witness: the freshness theorem applied at concrete inputs — an entry
created at time 10 is evicted and missed both when the file's mtime is 50 and
when the stat throws, and a hit at mtime 5 exposes an entry at least as new as
the file. -/
theorem c3_cache_freshness_witness :
    ((getMediaInfo cfgC2 (fsAt 50) "/videos/a.mp4" oneEntryCache).1 = none ∧
      (getMediaInfo cfgC2 (fsAt 50) "/videos/a.mp4" oneEntryCache).2.mediaInfoCache.lookup
        (generateCacheKey "/videos/a.mp4") = none)
    ∧ ((getMediaInfo cfgC2 fsGone "/videos/a.mp4" oneEntryCache).1 = none ∧
      (getMediaInfo cfgC2 fsGone "/videos/a.mp4" oneEntryCache).2.mediaInfoCache.lookup
        (generateCacheKey "/videos/a.mp4") = none)
    ∧ (∃ e : CacheEntry Nat,
        oneEntryCache.mediaInfoCache.lookup (generateCacheKey "/videos/a.mp4") = some e ∧
        e.data = 7 ∧ ∃ m : Nat, fsAt 5 "/videos/a.mp4" = some m ∧ m ≤ e.timestamp) :=
  ⟨(c3_cache_freshness cfgC2 (fsAt 50) "/videos/a.mp4" oneEntryCache).2.2
      ⟨7, 10, 1⟩ 50 rfl (by decide) rfl (by decide),
   (c3_cache_freshness cfgC2 fsGone "/videos/a.mp4" oneEntryCache).2.1
      ⟨7, 10, 1⟩ rfl (by decide) rfl,
   (c3_cache_freshness cfgC2 (fsAt 5) "/videos/a.mp4" oneEntryCache).1
      7 (by decide)⟩

/-- C4: once a client exceeds the configured per-window request ceiling, the
`(ceiling+1)`-th request (all within one window) is denied and the client
enters the `blockedIPs` set; `cleanupRateLimitMap` never touches the block set,
every later `checkRateLimit` call for a blocked client returns `false` whatever
the elapsed time, and no `checkRateLimit` call ever removes a client from the
block set. -/
theorem c4_rate_limit_permanent_block (cfg : SecurityConfig) (now : Nat)
    (cid : String) (s : SecState)
    (hmax : 1 ≤ cfg.rateLimitMaxRequests)
    (hnb : s.blockedIPs.contains cid = false)
    (hfresh : s.rateLimitMap.lookup cid = none) :
    (checkRateLimit cfg now cid
        (stateAfter cfg now cid cfg.rateLimitMaxRequests s)).1 = false
    ∧ ((checkRateLimit cfg now cid
        (stateAfter cfg now cid cfg.rateLimitMaxRequests s)).2).blockedIPs.contains cid
        = true
    ∧ (∀ (s' : SecState) (now' : Nat), s'.blockedIPs.contains cid = true →
        checkRateLimit cfg now' cid s' = (false, s'))
    ∧ (∀ (s' : SecState) (now' : Nat),
        (cleanupRateLimitMap cfg now' s').blockedIPs = s'.blockedIPs)
    ∧ (∀ (s' : SecState) (now' : Nat) (cid2 : String),
        s'.blockedIPs.contains cid = true →
        ((checkRateLimit cfg now' cid2 s').2).blockedIPs.contains cid = true) := by
  have hnm : cid ∉ s.blockedIPs := by simpa using hnb
  -- The first request creates the window entry with count 1 and admits.
  have hstep1 : checkRateLimit cfg now cid s =
      (true, { s with rateLimitMap := mapSet cid ⟨1, now⟩ s.rateLimitMap }) := by
    simp [checkRateLimit, hnm, hfresh]
  -- Requests 2 .. ceiling count up within the same window.
  have hcount := stateAfter_count cfg now cid (cfg.rateLimitMaxRequests - 1)
    { s with rateLimitMap := mapSet cid ⟨1, now⟩ s.rateLimitMap } 1
    (by simpa using hnb)
    (by simpa using lookup_mapSet_self cid ⟨1, now⟩ s.rateLimitMap)
    (by omega)
  have hsucc : cfg.rateLimitMaxRequests = (cfg.rateLimitMaxRequests - 1) + 1 := by omega
  have hafter : stateAfter cfg now cid cfg.rateLimitMaxRequests s
      = stateAfter cfg now cid (cfg.rateLimitMaxRequests - 1)
          { s with rateLimitMap := mapSet cid ⟨1, now⟩ s.rateLimitMap } := by
    conv_lhs => rw [hsucc, stateAfter, hstep1]
  have harith : 1 + (cfg.rateLimitMaxRequests - 1) = cfg.rateLimitMaxRequests := by omega
  have hlookupM : (stateAfter cfg now cid cfg.rateLimitMaxRequests s).rateLimitMap.lookup cid
      = some ⟨cfg.rateLimitMaxRequests, now⟩ := by
    rw [hafter]
    rw [harith] at hcount
    exact hcount.1
  have hblockM : (stateAfter cfg now cid cfg.rateLimitMaxRequests s).blockedIPs
      = s.blockedIPs := by
    rw [hafter]; exact hcount.2
  have hnmM : cid ∉ (stateAfter cfg now cid cfg.rateLimitMaxRequests s).blockedIPs := by
    rw [hblockM]; exact hnm
  have hw : ¬ (now - now > cfg.rateLimitWindow * 1000) := by omega
  have hover : cfg.rateLimitMaxRequests + 1 > cfg.rateLimitMaxRequests := by omega
  -- The (ceiling+1)-th request overflows the counter and blocks the client.
  have hfinal : checkRateLimit cfg now cid
      (stateAfter cfg now cid cfg.rateLimitMaxRequests s)
      = (false,
         { rateLimitMap := mapSet cid ⟨cfg.rateLimitMaxRequests + 1, now⟩
             (stateAfter cfg now cid cfg.rateLimitMaxRequests s).rateLimitMap,
           blockedIPs := (stateAfter cfg now cid cfg.rateLimitMaxRequests s).blockedIPs
             ++ [cid] }) := by
    simp [checkRateLimit, hnmM, hlookupM, hw, hover]
  refine ⟨by rw [hfinal], ?_, ?_, ?_, ?_⟩
  · rw [hfinal]
    simp
  · intro s' now' h'
    exact checkRateLimit_of_blocked cfg now' cid s' h'
  · intro s' now'
    rfl
  · intro s' now' cid2 h'
    exact checkRateLimit_preserves_blocked cfg now' cid cid2 s' h'

/-- C4 witness: the theorem applied at the spec's scenario — limit 3 per
60-second window, a fresh client: three admitted requests, the fourth is denied
and blocks the client, the block survives cleanup, and a later request (even at
time 61001ms) is denied. -/
theorem c4_rate_limit_permanent_block_witness :
    (checkRateLimit secCfg3 0 "clientX" (stateAfter secCfg3 0 "clientX" 3 ⟨[], []⟩)).1 = false
    ∧ ((checkRateLimit secCfg3 0 "clientX"
        (stateAfter secCfg3 0 "clientX" 3 ⟨[], []⟩)).2).blockedIPs.contains "clientX" = true
    ∧ checkRateLimit secCfg3 61001 "clientX" ⟨[], ["clientX"]⟩ = (false, ⟨[], ["clientX"]⟩)
    ∧ (cleanupRateLimitMap secCfg3 61001 ⟨[], ["clientX"]⟩).blockedIPs = ["clientX"]
    ∧ ((checkRateLimit secCfg3 61001 "clientY" ⟨[], ["clientX"]⟩).2).blockedIPs.contains
        "clientX" = true := by
  have h := c4_rate_limit_permanent_block secCfg3 0 "clientX" ⟨[], []⟩
    (by decide) (by decide) (by decide)
  exact ⟨h.1, h.2.1, h.2.2.1 ⟨[], ["clientX"]⟩ 61001 (by decide),
    h.2.2.2.1 ⟨[], ["clientX"]⟩ 61001,
    h.2.2.2.2 ⟨[], ["clientX"]⟩ 61001 "clientY" (by decide)⟩

/-- C5 counterexample: on the input `['-i', '-f', 'pipe:']` a single
sanitization pass drops the interleaved `'-f'` token and outputs
`['-i', 'pipe:']`, a piped-input directive — refuting the claim that the output
never contains an `-i` token immediately followed by `pipe:` regardless of how
such directives are interleaved with other dropped tokens. -/
theorem c5_counterexample :
    hasPipedInput (sanitizeFFmpegArgs vTrue ["-i", "-f", "pipe:"]) = true := by
  decide

/-- C5 (amended): the output of `sanitizeFFmpegArgs` contains no `'-f'`,
`'lavfi'`, `'-protocol_whitelist'`, `'-safe'`, `'0'` or `'concat'` token, and an
`'-i'` token immediately followed by `'pipe:'` in the *input* is removed as a
pair; but when another dropped token separates `'-i'` from `'pipe:'` in the
input, the output can contain a piped-input directive (see the
counterexample). -/
theorem c5_sanitizer_amended (v : String → Bool) (args : List String) :
    (sanitizeFFmpegArgs v args).all (fun t => !(dangerousFlags.contains t)) = true
    ∧ sanitizeFFmpegArgs v ("-i" :: "pipe:" :: args) = sanitizeFFmpegArgs v args :=
  ⟨sanitize_all_safe v args, rfl⟩

/-- C10: `sanitizeFFmpegArgs` drops every standalone occurrence of the literal
tokens `'-f'`, `'lavfi'`, `'-protocol_whitelist'`, `'-safe'`, `'0'` and
`'concat'` (the members of `dangerousFlags`) irrespective of surrounding
context, so the output can differ from the input on benign argument lists; in
particular the media-info tool's own argv `['-i', path, '-f', 'null', '-']`
loses its `'-f'` token. -/
theorem c10_sanitizer_token_drop :
    (∀ (v : String → Bool) (args : List String),
      (sanitizeFFmpegArgs v args).all (fun t => !(dangerousFlags.contains t)) = true)
    ∧ sanitizeFFmpegArgs vTrue ["-i", "/videos/a.mp4", "-f", "null", "-"]
        = ["-i", "/videos/a.mp4", "null", "-"] :=
  ⟨sanitize_all_safe, by decide⟩

/-- C6 counterexample: with a configured maximum of 1 and two cached entries,
an eviction sweep removes `Math.floor(1 * 0.2) = 0` entries, so immediately
after `cleanupCache` completes the cache still holds 2 entries — refuting the
claim that the post-sweep size is at most the configured maximum. -/
theorem c6_counterexample :
    ¬ ((cleanupCache cfgCache1 100 twoEntryCache).mediaInfoCache.length
        ≤ cfgCache1.cacheSize) := by
  decide

/-- C6 (amended): an eviction sweep leaves the cache unchanged when its size is
within the configured maximum, and otherwise removes exactly
`min (floor(0.2 · maximum)) size` entries (the lowest-scoring ones) — so the
post-sweep size is `size - floor(0.2 · maximum)` and can still exceed the
configured maximum.  Stated for caches without duplicate keys, which is every
cache a JavaScript `Map` can represent. -/
theorem c6_sweep_size_amended {α : Type} (cfg : PerformanceConfig) (now : Nat)
    (c : CacheState α) (hnd : (c.mediaInfoCache.map Prod.fst).Nodup) :
    (cleanupCache cfg now c).mediaInfoCache.length
      = if c.mediaInfoCache.length ≤ cfg.cacheSize then c.mediaInfoCache.length
        else c.mediaInfoCache.length
          - min (cfg.cacheSize * 2 / 10) c.mediaInfoCache.length := by
  by_cases hle : c.mediaInfoCache.length ≤ cfg.cacheSize
  · simp [cleanupCache, hle]
  · rw [if_neg hle]
    simp only [cleanupCache, if_neg hle]
    set m := c.mediaInfoCache with hm
    set k := cfg.cacheSize * 2 / 10 with hk
    set sorted := sortByScore now m with hsorted
    set ks := (sorted.take k).map Prod.fst with hks
    have hperm : sorted.Perm m := sortByScore_perm now m
    have hndsorted : (sorted.map Prod.fst).Nodup :=
      ((hperm.map Prod.fst).nodup_iff).mpr hnd
    -- entries in the removed prefix all match the removed-key predicate
    have htake : (sorted.take k).countP (fun e => ks.contains e.1)
        = min k m.length := by
      rw [List.countP_eq_length.mpr, List.length_take, hperm.length_eq]
      intro e he
      have : e.1 ∈ ks := List.mem_map_of_mem Prod.fst he
      simpa using this
    -- entries outside the removed prefix never match it (keys are distinct)
    have hdrop : (sorted.drop k).countP (fun e => ks.contains e.1) = 0 := by
      rw [List.countP_eq_zero]
      intro e he hcont
      have hmem : e.1 ∈ ks := by simpa using hcont
      have hdisj : List.Disjoint ((sorted.take k).map Prod.fst)
          ((sorted.drop k).map Prod.fst) := by
        refine List.disjoint_of_nodup_append ?_
        rw [← List.map_append, List.take_append_drop]
        exact hndsorted
      exact hdisj (hks ▸ hmem) (List.mem_map_of_mem Prod.fst he)
    have hcount : m.countP (fun e => ks.contains e.1) = min k m.length := by
      rw [← hperm.countP_eq]
      conv_lhs => rw [← List.take_append_drop k sorted]
      rw [List.countP_append, htake, hdrop]
      omega
    rw [length_filter_not, hcount]

/-- C6 witness: the amended theorem applied at the concrete two-entry cache
with maximum 1 — the sweep removes `min (floor(0.2)) 2 = 0` entries and the
size stays 2, above the maximum. -/
theorem c6_sweep_size_amended_witness :
    (cleanupCache cfgCache1 100 twoEntryCache).mediaInfoCache.length
      = if twoEntryCache.mediaInfoCache.length ≤ cfgCache1.cacheSize then
          twoEntryCache.mediaInfoCache.length
        else twoEntryCache.mediaInfoCache.length
          - min (cfgCache1.cacheSize * 2 / 10) twoEntryCache.mediaInfoCache.length :=
  c6_sweep_size_amended cfgCache1 100 twoEntryCache (by decide)

/-- C7 counterexample: in the scenario of the claim (the timeout timer fires
before the executor reports completion, e.g. a 100ms timeout against a 500ms
execution), the source's timeout handler (queue.ts lines 54-57) only rejects
the handle and deletes the job from `running` — it contains no instruction to
the Executor to terminate the underlying process, refuting that conjunct of the
claim. -/
theorem c7_counterexample :
    (startJobRun "job1" 100 true (Except.ok "done")).killIssued = false := by
  decide

/-- C7 (amended): for every dispatched job whose timeout timer fires before the
executor reports completion, the job's handle is settled with the timeout
failure — before and instead of the executor's own result, whether that result
is a success or an error — and the job is removed from the running set; but the
Executor is *not* instructed to terminate the underlying process. -/
theorem c7_timeout_amended (id : String) (timeout : Nat)
    (res : Except String String) :
    (startJobRun id timeout true res).channel
        = some (Outcome.failure (timeoutMsg id timeout))
    ∧ (startJobRun id timeout true res).killIssued = false
    ∧ (startJobRun id timeout true res).isRunning = false := by
  cases res <;> simp [startJobRun, timeoutFireEv, executorDoneEv, dispatched,
    settleReject, settleResolve]

/-- C8 counterexample: with ceiling 2, two pending jobs and nothing running
(two free slots), a single scheduling tick dispatches one job, not two —
refuting the claim that a tick admits jobs up to the number of free slots. -/
theorem c8_counterexample :
    (runOps cfgC2 [QOp.submit ⟨"a", "convert", 0, none⟩,
                   QOp.submit ⟨"b", "convert", 0, none⟩,
                   QOp.tick 0]).running.length = 1
    ∧ ¬ (runOps cfgC2 [QOp.submit ⟨"a", "convert", 0, none⟩,
                       QOp.submit ⟨"b", "convert", 0, none⟩,
                       QOp.tick 0]).running.length = 2 := by
  decide

/-- C8 (amended): on every scheduling tick the scheduler admits at most one
job; when a slot is free and jobs are pending the admitted job is exactly the
head of the priority-sorted queue (it enters `running` with its start time
set), and when no slot is free the tick changes nothing.  Filling `k` free
slots therefore takes `k` successive ticks. -/
theorem c8_one_dispatch_amended (cfg : PerformanceConfig) (now : Nat)
    (s : QueueState) :
    (processQueue cfg now s).running.length ≤ s.running.length + 1
    ∧ (∀ (j : Job) (rest : List Job), sortQueue s.queue = j :: rest →
        s.running.length < cfg.maxConcurrentJobs →
          (processQueue cfg now s).queue = rest ∧
          (processQueue cfg now s).running.lookup j.id
              = some { j with startTime := some now })
    ∧ (cfg.maxConcurrentJobs ≤ s.running.length → processQueue cfg now s = s) := by
  refine ⟨?_, ?_, ?_⟩
  · simp only [processQueue]
    by_cases hfull : cfg.maxConcurrentJobs ≤ s.running.length
    · simp [hfull]
    · rw [if_neg hfull]
      cases hq : sortQueue s.queue with
      | nil => simp
      | cons j rest =>
        have := length_mapSet_le j.id { j with startTime := some now } s.running
        simpa using this
  · intro j rest hq hlt
    simp only [processQueue, if_neg (by omega : ¬ cfg.maxConcurrentJobs ≤ s.running.length), hq]
    exact ⟨trivial, lookup_mapSet_self _ _ _⟩
  · intro hfull
    simp [processQueue, hfull]

/-- C8 witness: the amended theorem applied at the concrete scenario — ceiling
2, the three sample jobs pending, nothing running — dispatches exactly the
priority-5 job on the first tick. -/
theorem c8_one_dispatch_amended_witness :
    (processQueue cfgC2 0 qs3).queue
        = [⟨"job-p3", "convert", 3, none⟩, ⟨"job-p1", "convert", 1, none⟩]
    ∧ (processQueue cfgC2 0 qs3).running.lookup "job-p5"
        = some ⟨"job-p5", "convert", 5, some 0⟩ :=
  (c8_one_dispatch_amended cfgC2 0 qs3).2.1
    ⟨"job-p5", "convert", 5, none⟩
    [⟨"job-p3", "convert", 3, none⟩, ⟨"job-p1", "convert", 1, none⟩]
    (by decide) (by decide)

/-- C9: a job's completion channel is settled at most once — the first
settlement determines the handle's outcome and all later resolve/reject
attempts are no-ops.  In particular, after a timeout rejection the executor's
later success is invisible on the handle, and after cancelling a running job
the executor's result (success or error) is invisible on the handle. -/
theorem c9_single_settlement :
    (∀ (o : Outcome) (rest : List Outcome),
      settleAttempts none (o :: rest) = some o)
    ∧ (∀ (id : String) (timeout : Nat) (v : String),
      (startJobRun id timeout true (Except.ok v)).channel
          = some (Outcome.failure (timeoutMsg id timeout)))
    ∧ (∀ res : Except String String,
      (cancelRunningThen res).channel = some (Outcome.failure "Job cancelled")) := by
  refine ⟨?_, ?_, ?_⟩
  · intro o rest
    have h1 : settleAttempt none o = some o := by cases o <;> rfl
    simp only [settleAttempts, List.foldl_cons, h1]
    exact settleAttempts_some o rest
  · intro id timeout v
    simp [startJobRun, timeoutFireEv, executorDoneEv, dispatched,
      settleReject, settleResolve]
  · intro res
    cases res <;> simp [cancelRunningThen, executorDoneEv, dispatched,
      settleReject, settleResolve]

end FFmpegMcp
